import Mathlib

/-!
Verification of the transaction-action core of etcommon
(block-core/src/transaction.rs): the three-variant `TransactionAction`
type, its canonical RLP wire encoding and decoding, and the
address-derivation rule of each variant.

Bytes are modelled as natural numbers below 256 in a `List Nat`;
20-byte addresses, 32-byte salts and 256-bit hashes are modelled as
natural numbers together with their fixed-width big-endian byte images.
The sibling crates of the repository (the rlp codec, Keccak-256 and the
bigint conversions) are not part of the source under audit; the codec is
modelled from the spec as the canonical length-prefixed list/byte-string
encoding, and Keccak-256 is an abstract hash parameter.
-/

namespace Etcommon

/-- Big-endian value of a byte list. -/
def fromBytesBE : List Nat → Nat
  | [] => 0
  | b :: rest => b * 256 ^ rest.length + fromBytesBE rest

/-- Fixed-width (w bytes) big-endian image of a number. Modelled from the
spec: the canonical fixed-width byte form of 20-byte address and 32-byte
hash values in the bigint crate. -/
def toBytesBE : Nat → Nat → List Nat
  | 0, _ => []
  | w + 1, n => toBytesBE w (n / 256) ++ [n % 256]

/-- Minimal big-endian bytes, fuel-indexed so the recursion is structural. -/
def beBytesFuel : Nat → Nat → List Nat
  | 0, _ => []
  | _ + 1, 0 => []
  | f + 1, n + 1 => beBytesFuel f ((n + 1) / 256) ++ [(n + 1) % 256]

/-- Minimal big-endian bytes of a number (no leading zeros, zero is empty).
Modelled from the spec: the canonical integer encoding of the
length-prefixed codec. -/
def beBytes (n : Nat) : List Nat := beBytesFuel n n

/-- Header bytes for a string or list payload of the given length.
Modelled from the spec: the self-describing length prefix of the
canonical codec. -/
def encodeLength (len offset : Nat) : List Nat :=
  if len < 56 then [offset + len]
  else (offset + 55 + (beBytes len).length) :: beBytes len

/-- Encoding of a byte-string primitive: a single small byte stands for
itself, anything else is length-prefixed. Modelled from the spec. -/
def rlpStr (bs : List Nat) : List Nat :=
  if bs.length = 1 ∧ bs.headD 0 < 0x80 then bs
  else encodeLength bs.length 0x80 ++ bs

/-- Encoding of an unsigned integer: minimal big-endian bytes as a string.
Modelled from the spec. -/
def rlpUint (n : Nat) : List Nat := rlpStr (beBytes n)

/-- Encoding of a list primitive from its already-encoded payload.
Modelled from the spec. -/
def rlpList (payload : List Nat) : List Nat :=
  encodeLength payload.length 0xc0 ++ payload

/-- Read one item header: is-list flag, header length and payload length.
Modelled from the spec: canonical self-describing prefixes, the long
forms only for payloads of at least 56 bytes. -/
def readHeader : List Nat → Option (Bool × Nat × Nat)
  | [] => none
  | b :: rest =>
    if b < 0x80 then some (false, 0, 1)
    else if b < 0xb8 then some (false, 1, b - 0x80)
    else if b < 0xc0 then
      if b - 0xb7 ≤ rest.length ∧ 56 ≤ fromBytesBE (rest.take (b - 0xb7)) then
        some (false, 1 + (b - 0xb7), fromBytesBE (rest.take (b - 0xb7)))
      else none
    else if b < 0xf8 then some (true, 1, b - 0xc0)
    else
      if b - 0xf7 ≤ rest.length ∧ 56 ≤ fromBytesBE (rest.take (b - 0xf7)) then
        some (true, 1 + (b - 0xf7), fromBytesBE (rest.take (b - 0xf7)))
      else none

/-- Split the first item off a byte stream: its kind and payload bytes,
and the remaining bytes after the item. -/
def splitItem (bs : List Nat) : Option ((Bool × List Nat) × List Nat) :=
  match readHeader bs with
  | some (isl, hl, pl) =>
    if hl + pl ≤ bs.length then
      some ((isl, (bs.drop hl).take pl), bs.drop (hl + pl))
    else none
  | none => none

/-- Parse a byte sequence as exactly one primitive item spanning the whole
input (the UntrustedRlp view of the bytes handed to decode). -/
def parseRlp (input : List Nat) : Option (Bool × List Nat) :=
  match splitItem input with
  | some (item, []) => some item
  | _ => none

/-- Item at an index inside a list payload: skip that many items and read
the next one; items past the requested index are never examined
(UntrustedRlp.at). -/
def itemAt : Nat → List Nat → Option (Bool × List Nat)
  | 0, bs => (splitItem bs).map Prod.fst
  | i + 1, bs =>
    match splitItem bs with
    | some (_, rest) => itemAt i rest
    | none => none

/-- Number of items in a list payload, when every item is well formed. -/
def itemCountFuel : Nat → List Nat → Option Nat
  | _, [] => some 0
  | 0, _ :: _ => none
  | f + 1, b :: r =>
    match splitItem (b :: r) with
    | some (_, rest) => (itemCountFuel f rest).map (fun k => k + 1)
    | none => none

/-- Number of items in a list payload. -/
def itemCount (bs : List Nat) : Option Nat := itemCountFuel bs.length bs

/-- Transaction action: call an account, create with the caller/nonce
rule, or create with an explicit salt and code hash. -/
inductive TransactionAction where
  | Call (address : Nat)
  | Create
  | Create2 (salt : Nat) (code_hash : Nat)
deriving DecidableEq

/-- Modelled from the spec: the typed decode-error taxonomy of the rlp
crate, collapsed to a single value. -/
inductive DecoderError where
  | rlpError
deriving DecidableEq

/-- Decode an item as an unsigned byte (u8): a string of at most one byte. -/
def decodeU8 : Bool × List Nat → Option Nat
  | (false, bs) => if bs.length ≤ 1 then some (fromBytesBE bs) else none
  | (true, _) => none

/-- Decode an item as a 32-byte hash (H256), kept as its integer value. -/
def decodeH256 : Bool × List Nat → Option Nat
  | (false, bs) => if bs.length = 32 then some (fromBytesBE bs) else none
  | (true, _) => none

/-- Decode an item as a 20-byte address (H160), kept as its integer value. -/
def decodeAddress : Bool × List Nat → Option Nat
  | (false, bs) => if bs.length = 20 then some (fromBytesBE bs) else none
  | (true, _) => none

/-- UntrustedRlp.val_at: the input must be a list; fetch the item at the
index. -/
def valAt (input : List Nat) (i : Nat) : Option (Bool × List Nat) :=
  match parseRlp input with
  | some (true, payload) => itemAt i payload
  | _ => none

/-- Encodable for TransactionAction (transaction.rs lines 44-61): a Call
is the raw 20 address bytes as one string, Create is the empty string,
Create2 is a 3-item list of the u8 tag 0xc2, the 32 salt bytes and the
32 code-hash bytes. -/
def TransactionAction.rlp_append : TransactionAction → List Nat
  | .Call a => rlpStr (toBytesBE 20 a)
  | .Create => rlpStr []
  | .Create2 salt code_hash =>
    rlpList (rlpUint 0xc2 ++ rlpStr (toBytesBE 32 salt)
      ++ rlpStr (toBytesBE 32 code_hash))

/-- The Call fallback arm of decode: the whole input as a 20-byte address. -/
def decodeCall (input : List Nat) : Except DecoderError TransactionAction :=
  match (parseRlp input).bind decodeAddress with
  | some a => .ok (.Call a)
  | none => .error .rlpError

/-- Decodable for TransactionAction (transaction.rs lines 63-77): empty
input is Create; else a list whose first element decodes to the u8 0xc2
is Create2 with val_at 1 as the salt and val_at 2 as the code hash; else
the whole input as a 20-byte address is Call. -/
def TransactionAction.decode (input : List Nat) :
    Except DecoderError TransactionAction :=
  if parseRlp input = some (false, []) then .ok .Create
  else
    match (valAt input 0).bind decodeU8 with
    | some v =>
      if v = 0xc2 then
        match (valAt input 1).bind decodeH256, (valAt input 2).bind decodeH256 with
        | some salt, some code_hash => .ok (.Create2 salt code_hash)
        | _, _ => .error .rlpError
      else decodeCall input
    | none => decodeCall input

/-- TransactionAction::address (transaction.rs lines 18-40), with
Keccak-256 as an abstract hash parameter from bytes to bytes. The final
steps widen the hash into a 256-bit integer and truncate it to the low
160 bits (Address::from of an M256). -/
def TransactionAction.address (keccak : List Nat → List Nat)
    (self : TransactionAction) (caller nonce : Nat) : Nat :=
  match self with
  | .Call a => a
  | .Create =>
    fromBytesBE (keccak (rlpList (rlpStr (toBytesBE 20 caller) ++ rlpUint nonce)))
      % 2 ^ 256 % 2 ^ 160
  | .Create2 salt code_hash =>
    fromBytesBE ((keccak ([0xff] ++ toBytesBE 20 caller ++ toBytesBE 32 salt
      ++ toBytesBE 32 code_hash)).drop 12) % 2 ^ 256 % 2 ^ 160

/-- Well-typed values: a 20-byte address, a 32-byte salt and a 256-bit
code hash. -/
def TransactionAction.wf : TransactionAction → Prop
  | .Call a => a < 2 ^ 160
  | .Create => True
  | .Create2 salt code_hash => salt < 2 ^ 256 ∧ code_hash < 2 ^ 256

/-- Modelled from the spec: the canonical two-element list encoding of
[caller, nonce] that is hashed for a Create deployment. -/
def create_preimage (caller nonce : Nat) : List Nat :=
  rlpList (rlpStr (toBytesBE 20 caller) ++ rlpUint nonce)

/-- Modelled from the spec: the exact Create2 hash preimage, one byte
0xff, then the 20 caller bytes, the 32 salt bytes and the 32 code-hash
bytes. -/
def create2_preimage (caller salt code_hash : Nat) : List Nat :=
  [0xff] ++ toBytesBE 20 caller ++ toBytesBE 32 salt ++ toBytesBE 32 code_hash

/-- The guard of the spec's second dispatch step: the input can be read
as a list whose first element decodes as the single byte 0xc2. -/
def firstElementIsCreate2Tag (input : List Nat) : Bool :=
  match valAt input 0 with
  | some (false, bs) => bs = [0xc2]
  | _ => false

/-- Modelled from the spec: the decode dispatch written as the spec
states it, step by step — empty input is Create; else a list whose first
element decodes as the single byte 0xc2 is Create2, reading the second
element as a 32-byte salt and the third as a 32-byte hash converted to
its integer representation; else a plain byte-string address is Call;
anything else is a decode error. -/
def decode_spec (input : List Nat) : Except DecoderError TransactionAction :=
  if parseRlp input = some (false, []) then .ok .Create
  else if firstElementIsCreate2Tag input then
    match valAt input 1, valAt input 2 with
    | some (false, saltB), some (false, hashB) =>
      if saltB.length = 32 ∧ hashB.length = 32 then
        .ok (.Create2 (fromBytesBE saltB) (fromBytesBE hashB))
      else .error .rlpError
    | _, _ => .error .rlpError
  else
    match parseRlp input with
    | some (false, bs) =>
      if bs.length = 20 then .ok (.Call (fromBytesBE bs)) else .error .rlpError
    | _ => .error .rlpError

/-! Arithmetic facts about the byte conversions. -/

theorem toBytesBE_length (w n : Nat) : (toBytesBE w n).length = w := by
  induction w generalizing n with
  | zero => rfl
  | succ w ih => simp [toBytesBE, ih]

theorem fromBytesBE_append (xs ys : List Nat) :
    fromBytesBE (xs ++ ys) = fromBytesBE xs * 256 ^ ys.length + fromBytesBE ys := by
  induction xs with
  | nil => simp [fromBytesBE]
  | cons b xs ih =>
    have hc : (b :: xs) ++ ys = b :: (xs ++ ys) := rfl
    rw [hc, fromBytesBE, fromBytesBE, ih, List.length_append]
    ring

theorem fromBytesBE_toBytesBE (w n : Nat) :
    fromBytesBE (toBytesBE w n) = n % 256 ^ w := by
  induction w generalizing n with
  | zero => simp [toBytesBE, fromBytesBE, Nat.mod_one]
  | succ w ih =>
    have h : (256 : Nat) ^ (w + 1) = 256 * 256 ^ w := by
      rw [pow_succ, Nat.mul_comm]
    rw [toBytesBE, fromBytesBE_append, ih, h, Nat.mod_mul]
    simp [fromBytesBE]
    ring

theorem fromBytesBE_lt (bs : List Nat) (h : ∀ b ∈ bs, b < 256) :
    fromBytesBE bs < 256 ^ bs.length := by
  induction bs with
  | nil => simp [fromBytesBE]
  | cons b rest ih =>
    have hb : b < 256 := h b (by simp)
    have hr : fromBytesBE rest < 256 ^ rest.length :=
      ih (fun x hx => h x (by simp [hx]))
    simp only [fromBytesBE, List.length_cons]
    calc b * 256 ^ rest.length + fromBytesBE rest
        < b * 256 ^ rest.length + 256 ^ rest.length := by omega
      _ = (b + 1) * 256 ^ rest.length := by ring
      _ ≤ 256 * 256 ^ rest.length := Nat.mul_le_mul_right _ (by omega)
      _ = 256 ^ (rest.length + 1) := by rw [pow_succ, Nat.mul_comm]

theorem toBytesBE_mem_lt (w n : Nat) : ∀ b ∈ toBytesBE w n, b < 256 := by
  induction w generalizing n with
  | zero => simp [toBytesBE]
  | succ w ih =>
    intro b hb
    rw [toBytesBE] at hb
    rcases List.mem_append.mp hb with hmem | hmem
    · exact ih _ b hmem
    · simp at hmem
      omega

theorem take_append_self (l1 l2 : List Nat) : (l1 ++ l2).take l1.length = l1 := by
  induction l1 with
  | nil => simp
  | cons a t ih => simp [ih]

theorem drop_append_self (l1 l2 : List Nat) : (l1 ++ l2).drop l1.length = l2 := by
  induction l1 with
  | nil => simp
  | cons a t ih => simp [ih]

theorem fromBytesBE_mod_drop (bs : List Nat) (hb : ∀ b ∈ bs, b < 256)
    (hlen : bs.length = 32) :
    fromBytesBE bs % 2 ^ 160 = fromBytesBE (bs.drop 12) := by
  have e := List.take_append_drop 12 bs
  have hdl : (bs.drop 12).length = 20 := by simp [hlen]
  have h2 : (2 : Nat) ^ 160 = 256 ^ 20 := by norm_num
  have hlt : fromBytesBE (bs.drop 12) < 256 ^ 20 := by
    have hx := fromBytesBE_lt (bs.drop 12)
      (fun x hx => hb x (List.mem_of_mem_drop hx))
    rwa [hdl] at hx
  calc fromBytesBE bs % 2 ^ 160
      = fromBytesBE (bs.take 12 ++ bs.drop 12) % 2 ^ 160 := by rw [e]
    _ = (fromBytesBE (bs.take 12) * 256 ^ 20 + fromBytesBE (bs.drop 12)) % 2 ^ 160 := by
        rw [fromBytesBE_append, hdl]
    _ = fromBytesBE (bs.drop 12) := by
        rw [h2, Nat.add_comm, Nat.add_mul_mod_self_right, Nat.mod_eq_of_lt hlt]

/-! Structural facts about the codec: how splitItem reads back what the
encoder writes. -/

theorem rlpStr_eq (bs : List Nat) (h1 : bs.length ≠ 1) (h2 : bs.length < 56) :
    rlpStr bs = (0x80 + bs.length) :: bs := by
  rw [rlpStr, if_neg (by simp [h1]), encodeLength, if_pos h2]
  rfl

theorem readHeader_short (L : Nat) (r : List Nat) (h2 : L < 56) :
    readHeader ((0x80 + L) :: r) = some (false, 1, L) := by
  simp only [readHeader]
  rw [if_neg (by omega), if_pos (by omega)]
  have hL : 0x80 + L - 0x80 = L := by omega
  rw [hL]

theorem splitItem_short_str (bs rest : List Nat) (h1 : bs.length ≠ 1)
    (h2 : bs.length < 56) :
    splitItem (rlpStr bs ++ rest) = some ((false, bs), rest) := by
  rw [rlpStr_eq bs h1 h2]
  have hc : ((0x80 + bs.length) :: bs) ++ rest = (0x80 + bs.length) :: (bs ++ rest) := rfl
  rw [hc, splitItem, readHeader_short bs.length (bs ++ rest) h2]
  simp only [List.length_cons, List.length_append]
  rw [if_pos (by omega)]
  have hd1 : ((0x80 + bs.length) :: (bs ++ rest)).drop 1 = bs ++ rest := rfl
  have hd2 : ((0x80 + bs.length) :: (bs ++ rest)).drop (1 + bs.length) = rest := by
    rw [Nat.add_comm, List.drop_succ_cons, drop_append_self]
  rw [hd1, hd2, take_append_self]

theorem splitItem_single (b : Nat) (rest : List Nat) (h : b < 0x80) :
    splitItem (b :: rest) = some ((false, [b]), rest) := by
  rw [splitItem, readHeader, if_pos h]
  simp

theorem splitItem_tag (rest : List Nat) :
    splitItem (0x81 :: 0xc2 :: rest) = some ((false, [0xc2]), rest) := by
  have hhead : readHeader (0x81 :: 0xc2 :: rest) = some (false, 1, 1) := by
    rw [readHeader]
    rw [if_neg (by norm_num), if_pos (by norm_num)]
  rw [splitItem, hhead]
  show (if 1 + 1 ≤ (0x81 :: 0xc2 :: rest).length then
      some ((false, ((0x81 :: 0xc2 :: rest).drop 1).take 1),
        (0x81 :: 0xc2 :: rest).drop (1 + 1))
    else none) = some ((false, [0xc2]), rest)
  rw [if_pos (by simp only [List.length_cons]; omega)]
  rfl

theorem rlpUint_tag : rlpUint 0xc2 = [0x81, 0xc2] := rfl

theorem splitItem_list68 (P rest : List Nat) (h : P.length = 68) :
    splitItem (rlpList P ++ rest) = some ((true, P), rest) := by
  have henc : rlpList P ++ rest = 0xf8 :: 0x44 :: (P ++ rest) := by
    rw [rlpList, h, encodeLength, if_neg (by norm_num)]
    rfl
  have hhead : readHeader (0xf8 :: 0x44 :: (P ++ rest)) = some (true, 2, 68) := by
    rw [readHeader]
    rw [if_neg (by norm_num), if_neg (by norm_num), if_neg (by norm_num),
        if_neg (by norm_num), if_pos]
    · have ht : (0x44 :: (P ++ rest)).take (0xf8 - 0xf7) = [0x44] := rfl
      rw [ht]
      norm_num [fromBytesBE]
    · constructor
      · simp
      · have ht : (0x44 :: (P ++ rest)).take (0xf8 - 0xf7) = [0x44] := rfl
        rw [ht]
        norm_num [fromBytesBE]
  rw [henc, splitItem, hhead]
  have hlen : (0xf8 :: 0x44 :: (P ++ rest)).length = 70 + rest.length := by
    simp [h]
    omega
  show (if 2 + 68 ≤ (0xf8 :: 0x44 :: (P ++ rest)).length then
      some ((true, ((0xf8 :: 0x44 :: (P ++ rest)).drop 2).take 68),
        (0xf8 :: 0x44 :: (P ++ rest)).drop (2 + 68))
    else none) = some ((true, P), rest)
  rw [if_pos (by rw [hlen]; omega)]
  have hd2 : ((0xf8 :: 0x44 :: (P ++ rest)).drop 2).take 68 = P := by
    have hx : (0xf8 :: 0x44 :: (P ++ rest)).drop 2 = P ++ rest := rfl
    rw [hx, ← h, take_append_self]
  have hd70 : (0xf8 :: 0x44 :: (P ++ rest)).drop (2 + 68) = rest := by
    have hx : (0xf8 :: 0x44 :: (P ++ rest)).drop (2 + 68) = (P ++ rest).drop 68 := by
      rfl
    rw [hx, ← h, drop_append_self]
  rw [hd2, hd70]

/-! Unfolding facts about parseRlp, itemAt and the decode dispatch. -/

theorem parseRlp_of_splitItem (input : List Nat) (it : Bool × List Nat)
    (h : splitItem input = some (it, [])) : parseRlp input = some it := by
  rw [parseRlp, h]

theorem itemAt_nil (i : Nat) : itemAt i [] = none := by
  cases i <;> simp [itemAt, splitItem, readHeader]

theorem itemAt_succ (i : Nat) (bs : List Nat) (it : Bool × List Nat)
    (rest : List Nat) (h : splitItem bs = some (it, rest)) :
    itemAt (i + 1) bs = itemAt i rest := by
  rw [itemAt, h]

theorem decodeCall_eq (input bs : List Nat)
    (h : parseRlp input = some (false, bs)) :
    decodeCall input
      = if bs.length = 20 then .ok (.Call (fromBytesBE bs))
        else .error .rlpError := by
  rw [decodeCall, h]
  show (match decodeAddress (false, bs) with
    | some a => (Except.ok (.Call a) : Except DecoderError TransactionAction)
    | none => Except.error .rlpError) = _
  rw [decodeAddress]
  by_cases h20 : bs.length = 20
  · rw [if_pos h20, if_pos h20]
  · rw [if_neg h20, if_neg h20]

theorem decodeCall_list (input payload : List Nat)
    (h : parseRlp input = some (true, payload)) :
    decodeCall input = .error .rlpError := by
  rw [decodeCall, h]
  rfl

theorem decodeCall_none (input : List Nat) (h : parseRlp input = none) :
    decodeCall input = .error .rlpError := by
  rw [decodeCall, h]
  rfl

theorem decode_str (input bs : List Nat)
    (h : parseRlp input = some (false, bs)) (hne : bs ≠ []) :
    TransactionAction.decode input = decodeCall input := by
  rw [TransactionAction.decode, if_neg (by rw [h]; simp [hne])]
  have hv : valAt input 0 = none := by rw [valAt, h]
  rw [hv]
  rfl

theorem decode_list (input payload : List Nat)
    (h : parseRlp input = some (true, payload)) :
    TransactionAction.decode input =
      match (itemAt 0 payload).bind decodeU8 with
      | some v =>
        if v = 0xc2 then
          match (itemAt 1 payload).bind decodeH256,
              (itemAt 2 payload).bind decodeH256 with
          | some salt, some code_hash => .ok (.Create2 salt code_hash)
          | _, _ => .error .rlpError
        else decodeCall input
      | none => decodeCall input := by
  rw [TransactionAction.decode, if_neg (by rw [h]; simp)]
  have hv0 : valAt input 0 = itemAt 0 payload := by rw [valAt, h]
  have hv1 : valAt input 1 = itemAt 1 payload := by rw [valAt, h]
  have hv2 : valAt input 2 = itemAt 2 payload := by rw [valAt, h]
  rw [hv0, hv1, hv2]

theorem decode_none (input : List Nat) (h : parseRlp input = none) :
    TransactionAction.decode input = .error .rlpError := by
  rw [TransactionAction.decode, if_neg (by rw [h]; simp)]
  have hv : valAt input 0 = none := by rw [valAt, h]
  rw [hv]
  show decodeCall input = _
  rw [decodeCall, h]
  rfl

theorem opt_some_bind {α β : Type} (a : α) (f : α → Option β) :
    (some a).bind f = f a := rfl

theorem rlpList_eq68 (P : List Nat) (h : P.length = 68) :
    rlpList P = 0xf8 :: 0x44 :: P := by
  rw [rlpList, h, encodeLength, if_neg (by norm_num)]
  rfl

theorem rlpStr_h256 (n : Nat) :
    rlpStr (toBytesBE 32 n) = 0xa0 :: toBytesBE 32 n := by
  have h := rlpStr_eq (toBytesBE 32 n)
    (by rw [toBytesBE_length]; omega) (by rw [toBytesBE_length]; omega)
  rw [toBytesBE_length] at h
  norm_num at h
  exact h

theorem create2_payload_length (salt code_hash : Nat) :
    (rlpUint 0xc2 ++ rlpStr (toBytesBE 32 salt)
      ++ rlpStr (toBytesBE 32 code_hash)).length = 68 := by
  rw [rlpUint_tag, rlpStr_h256, rlpStr_h256]
  simp [toBytesBE_length]

theorem itemCountFuel_nil (f : Nat) : itemCountFuel f [] = some 0 := by
  cases f <;> rfl

theorem itemCountFuel_cons (f : Nat) (bs : List Nat) (hne : bs ≠ [])
    (it : Bool × List Nat) (rest : List Nat)
    (h : splitItem bs = some (it, rest)) :
    itemCountFuel (f + 1) bs = (itemCountFuel f rest).map (fun k => k + 1) := by
  cases bs with
  | nil => cases hne rfl
  | cons b r => rw [itemCountFuel, h]

theorem itemAt_none_of_count (f : Nat) :
    ∀ (bs : List Nat) (k : Nat), itemCountFuel f bs = some k →
      ∀ i, k ≤ i → itemAt i bs = none := by
  induction f with
  | zero =>
    intro bs k h i _
    cases bs with
    | nil => exact itemAt_nil i
    | cons b r => simp [itemCountFuel] at h
  | succ f ih =>
    intro bs k h i hi
    cases bs with
    | nil => exact itemAt_nil i
    | cons b r =>
      rw [itemCountFuel] at h
      cases hs : splitItem (b :: r) with
      | none => rw [hs] at h; simp at h
      | some pr =>
        obtain ⟨it, rest⟩ := pr
        rw [hs] at h
        simp only [Option.map_eq_some'] at h
        obtain ⟨k', hk', hkk⟩ := h
        cases i with
        | zero => omega
        | succ i' =>
          rw [itemAt_succ i' _ it rest hs]
          exact ih rest k' hk' i' (by omega)

theorem decode_list_create2 (input payload : List Nat)
    (h : parseRlp input = some (true, payload)) (s c : Nat)
    (h0 : (itemAt 0 payload).bind decodeU8 = some 0xc2)
    (h1 : (itemAt 1 payload).bind decodeH256 = some s)
    (h2 : (itemAt 2 payload).bind decodeH256 = some c) :
    TransactionAction.decode input = .ok (.Create2 s c) := by
  rw [decode_list _ _ h, h0, h1, h2]
  rfl

theorem decode_create2_encoding (salt code_hash : Nat)
    (hs : salt < 2 ^ 256) (hc : code_hash < 2 ^ 256) :
    TransactionAction.decode
      (rlpList (rlpUint 0xc2 ++ rlpStr (toBytesBE 32 salt)
        ++ rlpStr (toBytesBE 32 code_hash)))
      = .ok (.Create2 salt code_hash) := by
  have hsl : (toBytesBE 32 salt).length = 32 := toBytesBE_length 32 salt
  have hcl : (toBytesBE 32 code_hash).length = 32 := toBytesBE_length 32 code_hash
  have h256 : (256 : Nat) ^ 32 = 2 ^ 256 := by norm_num
  have hP : rlpUint 0xc2 ++ rlpStr (toBytesBE 32 salt)
        ++ rlpStr (toBytesBE 32 code_hash)
      = 0x81 :: 0xc2 :: (rlpStr (toBytesBE 32 salt)
        ++ rlpStr (toBytesBE 32 code_hash)) := by
    rw [rlpUint_tag]
    simp only [List.cons_append, List.nil_append, List.append_assoc]
  have hPlen := create2_payload_length salt code_hash
  have hsplit := splitItem_list68 _ [] hPlen
  rw [List.append_nil] at hsplit
  have hparse := parseRlp_of_splitItem _ _ hsplit
  have hsp0 : splitItem (rlpUint 0xc2 ++ rlpStr (toBytesBE 32 salt)
        ++ rlpStr (toBytesBE 32 code_hash))
      = some ((false, [0xc2]), rlpStr (toBytesBE 32 salt)
        ++ rlpStr (toBytesBE 32 code_hash)) := by
    rw [hP, splitItem_tag]
  have hsp1 : splitItem (rlpStr (toBytesBE 32 salt)
        ++ rlpStr (toBytesBE 32 code_hash))
      = some ((false, toBytesBE 32 salt), rlpStr (toBytesBE 32 code_hash)) :=
    splitItem_short_str _ _ (by rw [hsl]; omega) (by rw [hsl]; omega)
  have hsp2 : splitItem (rlpStr (toBytesBE 32 code_hash))
      = some ((false, toBytesBE 32 code_hash), []) := by
    have hx := splitItem_short_str (toBytesBE 32 code_hash) []
      (by rw [hcl]; omega) (by rw [hcl]; omega)
    rwa [List.append_nil] at hx
  have h0 : itemAt 0 (rlpUint 0xc2 ++ rlpStr (toBytesBE 32 salt)
        ++ rlpStr (toBytesBE 32 code_hash)) = some (false, [0xc2]) := by
    rw [itemAt, hsp0]
    rfl
  have h1 : itemAt 1 (rlpUint 0xc2 ++ rlpStr (toBytesBE 32 salt)
        ++ rlpStr (toBytesBE 32 code_hash)) = some (false, toBytesBE 32 salt) := by
    rw [itemAt_succ 0 _ _ _ hsp0, itemAt, hsp1]
    rfl
  have h2 : itemAt 2 (rlpUint 0xc2 ++ rlpStr (toBytesBE 32 salt)
        ++ rlpStr (toBytesBE 32 code_hash)) = some (false, toBytesBE 32 code_hash) := by
    rw [itemAt_succ 1 _ _ _ hsp0, itemAt_succ 0 _ _ _ hsp1, itemAt, hsp2]
    rfl
  have hu8 : decodeU8 (false, [0xc2]) = some 0xc2 := by
    rw [decodeU8]
    norm_num [fromBytesBE]
  have hds : decodeH256 (false, toBytesBE 32 salt) = some salt := by
    rw [decodeH256, if_pos hsl, fromBytesBE_toBytesBE,
      Nat.mod_eq_of_lt (by rw [h256]; exact hs)]
  have hdc : decodeH256 (false, toBytesBE 32 code_hash) = some code_hash := by
    rw [decodeH256, if_pos hcl, fromBytesBE_toBytesBE,
      Nat.mod_eq_of_lt (by rw [h256]; exact hc)]
  refine decode_list_create2 _ _ hparse salt code_hash ?_ ?_ ?_
  · rw [h0, opt_some_bind]
    exact hu8
  · rw [h1, opt_some_bind]
    exact hds
  · rw [h2, opt_some_bind]
    exact hdc

theorem opt_none_bind {α β : Type} (f : α → Option β) :
    (none : Option α).bind f = none := rfl

theorem decodeU8_tag : decodeU8 (false, [0xc2]) = some 0xc2 := by
  rw [decodeU8]
  norm_num [fromBytesBE]

theorem create2_arm_eq (x y : Option (Bool × List Nat)) :
    (match x.bind decodeH256, y.bind decodeH256 with
      | some s, some c =>
        (Except.ok (.Create2 s c) : Except DecoderError TransactionAction)
      | _, _ => .error .rlpError)
    = match x, y with
      | some (false, saltB), some (false, hashB) =>
        if saltB.length = 32 ∧ hashB.length = 32 then
          .ok (.Create2 (fromBytesBE saltB) (fromBytesBE hashB))
        else .error .rlpError
      | _, _ => .error .rlpError := by
  rcases x with _ | ⟨bx, bsx⟩
  · rfl
  cases bx
  case true => rfl
  case false =>
    by_cases hlx : bsx.length = 32
    · rcases y with _ | ⟨b2, bsy⟩
      · simp [decodeH256, hlx, opt_some_bind, opt_none_bind]
      cases b2 with
      | true => simp [decodeH256, hlx, opt_some_bind]
      | false =>
        by_cases hly : bsy.length = 32
        · simp [decodeH256, hlx, hly, opt_some_bind]
        · simp [decodeH256, hlx, hly, opt_some_bind]
    · rcases y with _ | ⟨b2, bsy⟩
      · simp [decodeH256, hlx, opt_some_bind, opt_none_bind]
      cases b2 with
      | true => simp [decodeH256, hlx, opt_some_bind]
      | false =>
        by_cases hly : bsy.length = 32
        · simp [decodeH256, hlx, hly, opt_some_bind]
        · simp [decodeH256, hlx, hly, opt_some_bind]

theorem tag_of_decodeU8 (bs : List Nat) (h : decodeU8 (false, bs) = some 0xc2) :
    bs = [0xc2] := by
  rw [decodeU8] at h
  by_cases hl : bs.length ≤ 1
  · rw [if_pos hl] at h
    cases bs with
    | nil => simp [fromBytesBE] at h
    | cons b rest =>
      cases rest with
      | nil =>
        have hv : fromBytesBE [b] = b := by simp [fromBytesBE]
        rw [hv] at h
        simp only [Option.some.injEq] at h
        rw [h]
      | cons c r => simp at hl
  · rw [if_neg hl] at h
    simp at h

theorem decodeCall_ne_create (input : List Nat) :
    decodeCall input ≠ .ok .Create := by
  rw [decodeCall]
  cases h : (parseRlp input).bind decodeAddress <;> simp

theorem parseRlp_empty_str (input : List Nat)
    (h : parseRlp input = some (false, [])) : input = [0x80] := by
  cases input with
  | nil => simp [parseRlp, splitItem, readHeader] at h
  | cons b r =>
    rw [parseRlp] at h
    cases hs : splitItem (b :: r) with
    | none => rw [hs] at h; simp at h
    | some pr =>
      obtain ⟨it, rest⟩ := pr
      rw [hs] at h
      cases rest with
      | cons x xs => simp at h
      | nil =>
        simp only [Option.some.injEq] at h
        rw [h] at hs
        rw [splitItem] at hs
        cases hh : readHeader (b :: r) with
        | none => rw [hh] at hs; simp at hs
        | some hd =>
          obtain ⟨isl, hl, pl⟩ := hd
          rw [hh] at hs
          have hs2 : (if hl + pl ≤ (b :: r).length then
              some ((isl, ((b :: r).drop hl).take pl), (b :: r).drop (hl + pl))
            else none) = some (((false : Bool), ([] : List Nat)), ([] : List Nat)) := hs
          by_cases hle : hl + pl ≤ (b :: r).length
          case neg => rw [if_neg hle] at hs2; simp at hs2
          rw [if_pos hle] at hs2
          simp only [Option.some.injEq, Prod.mk.injEq] at hs2
          obtain ⟨⟨hisl, hpay⟩, hrest⟩ := hs2
          rw [readHeader] at hh
          split_ifs at hh with h1 h2 h3 h4 h5 h6
          · -- single byte below 0x80: payload is [b], never empty
            simp only [Option.some.injEq, Prod.mk.injEq] at hh
            obtain ⟨-, hhl, hpl⟩ := hh
            rw [← hhl, ← hpl] at hpay
            simp at hpay
          · -- short string: the only way to an empty payload and rest
            simp only [Option.some.injEq, Prod.mk.injEq] at hh
            obtain ⟨-, hhl, hpl⟩ := hh
            rw [← hhl, ← hpl] at hpay hrest hle
            simp only [List.length_cons] at hle
            have hd1 : (b :: r).drop 1 = r := rfl
            rw [hd1] at hpay
            have hpl0 : b - 0x80 = 0 := by
              rcases List.take_eq_nil_iff.mp hpay with hx | hx
              · exact hx
              · rw [hx] at hle
                simp at hle
                omega
            have hb : b = 0x80 := by omega
            rw [hpl0] at hrest
            have hd2 : (b :: r).drop (1 + 0) = r := rfl
            rw [hd2] at hrest
            rw [hb, hrest]
          · -- long string: payload length is at least 56, never empty
            simp only [Option.some.injEq, Prod.mk.injEq] at hh
            obtain ⟨-, hhl, hpl⟩ := hh
            obtain ⟨hll, hlen⟩ := h4
            rw [← hhl, ← hpl] at hpay hle
            rcases List.take_eq_nil_iff.mp hpay with hx | hx
            · omega
            · have hdl := List.drop_eq_nil_iff.mp hx
              simp only [List.length_cons] at hdl hle
              omega
          · -- short list: a list item is never the empty byte-string
            simp only [Option.some.injEq, Prod.mk.injEq] at hh
            obtain ⟨hB, -, -⟩ := hh
            rw [← hB] at hisl
            simp at hisl
          · -- long list
            simp only [Option.some.injEq, Prod.mk.injEq] at hh
            obtain ⟨hB, -, -⟩ := hh
            rw [← hB] at hisl
            simp at hisl

theorem decode_create_cases (input : List Nat)
    (h : TransactionAction.decode input = .ok .Create) :
    parseRlp input = some (false, []) := by
  by_contra hp
  cases hq : parseRlp input with
  | none =>
    rw [decode_none _ hq] at h
    simp at h
  | some pr =>
    obtain ⟨isl, bs⟩ := pr
    cases isl with
    | false =>
      have hbs : bs ≠ [] := by
        intro hE
        rw [hE] at hq
        exact hp hq
      rw [decode_str _ _ hq hbs, decodeCall_eq _ _ hq] at h
      by_cases h20 : bs.length = 20
      · rw [if_pos h20] at h
        simp at h
      · rw [if_neg h20] at h
        simp at h
    | true =>
      rw [decode_list _ _ hq] at h
      cases h0 : (itemAt 0 bs).bind decodeU8 with
      | none =>
        rw [h0] at h
        have h1 : decodeCall input = Except.ok TransactionAction.Create := h
        exact decodeCall_ne_create input h1
      | some v =>
        rw [h0] at h
        have h1 : (if v = 0xc2 then
            match (itemAt 1 bs).bind decodeH256, (itemAt 2 bs).bind decodeH256 with
            | some salt, some code_hash =>
              (Except.ok (.Create2 salt code_hash)
                : Except DecoderError TransactionAction)
            | _, _ => .error .rlpError
          else decodeCall input) = Except.ok TransactionAction.Create := h
        by_cases hv : v = 0xc2
        · rw [if_pos hv] at h1
          cases hx : (itemAt 1 bs).bind decodeH256 with
          | none =>
            rw [hx] at h1
            have h2 : (Except.error DecoderError.rlpError
                : Except DecoderError TransactionAction)
              = Except.ok TransactionAction.Create := h1
            simp at h2
          | some s =>
            rw [hx] at h1
            cases hy : (itemAt 2 bs).bind decodeH256 with
            | none =>
              rw [hy] at h1
              have h2 : (Except.error DecoderError.rlpError
                  : Except DecoderError TransactionAction)
                = Except.ok TransactionAction.Create := h1
              simp at h2
            | some c =>
              rw [hy] at h1
              have h2 : Except.ok (TransactionAction.Create2 s c)
                = Except.ok TransactionAction.Create := h1
              simp at h2
        · rw [if_neg hv] at h1
          exact decodeCall_ne_create input h1

theorem tag_first_item (input payload : List Nat)
    (hp : parseRlp input = some (true, payload))
    (htag : firstElementIsCreate2Tag input = true) :
    (itemAt 0 payload).bind decodeU8 = some 0xc2 := by
  rw [firstElementIsCreate2Tag] at htag
  have hv0 : valAt input 0 = itemAt 0 payload := by rw [valAt, hp]
  rw [hv0] at htag
  cases ho : itemAt 0 payload with
  | none => rw [ho] at htag; simp at htag
  | some it =>
    obtain ⟨bb, bs0⟩ := it
    rw [ho] at htag
    cases bb with
    | true =>
      have hft : (false : Bool) = true := htag
      simp at hft
    | false =>
      have htag2 : decide (bs0 = [0xc2]) = true := htag
      have hbs : bs0 = [0xc2] := of_decide_eq_true htag2
      rw [opt_some_bind, hbs]
      exact decodeU8_tag

/-! The claims. -/

/-- C1: for every TransactionAction value (a Call with a 20-byte address,
Create, or a Create2 with a 32-byte salt and a 256-bit code hash),
decoding the bytes produced by encoding it succeeds and returns an equal
value. -/
theorem c1_roundtrip (v : TransactionAction) (h : v.wf) :
    TransactionAction.decode v.rlp_append = .ok v := by
  cases v with
  | Create => rfl
  | Call a =>
    have ha : a < 2 ^ 160 := h
    have hlen : (toBytesBE 20 a).length = 20 := toBytesBE_length 20 a
    show TransactionAction.decode (rlpStr (toBytesBE 20 a)) = _
    have hsplit : splitItem (rlpStr (toBytesBE 20 a))
        = some ((false, toBytesBE 20 a), []) := by
      have hx := splitItem_short_str (toBytesBE 20 a) []
        (by rw [hlen]; omega) (by rw [hlen]; omega)
      rwa [List.append_nil] at hx
    have hparse := parseRlp_of_splitItem _ _ hsplit
    have hne : toBytesBE 20 a ≠ [] := by
      intro hE
      rw [hE] at hlen
      simp at hlen
    rw [decode_str _ _ hparse hne, decodeCall_eq _ _ hparse, if_pos hlen,
      fromBytesBE_toBytesBE]
    have h220 : (256 : Nat) ^ 20 = 2 ^ 160 := by norm_num
    rw [Nat.mod_eq_of_lt (by rw [h220]; exact ha)]
  | Create2 salt code_hash =>
    obtain ⟨hs, hc⟩ := h
    exact decode_create2_encoding salt code_hash hs hc

/-- C1 witness: the roundtrip at the concrete value Create2 5 1024. -/
theorem c1_roundtrip_witness :
    (TransactionAction.Create2 5 1024).wf
    ∧ TransactionAction.decode (TransactionAction.Create2 5 1024).rlp_append
        = .ok (.Create2 5 1024) :=
  ⟨⟨by norm_num, by norm_num⟩,
    c1_roundtrip (.Create2 5 1024) ⟨by norm_num, by norm_num⟩⟩

/-- C2: for every caller and nonce, the Create-derived address is the low
160 bits of the Keccak-256 hash of the canonical two-element list
encoding of [caller, nonce] — equivalently, when the hash is 32 valid
bytes, the value of its last 20 bytes — obtained by widening the hash to
256 bits and truncating to an address. -/
theorem c2_create_address (keccak : List Nat → List Nat) (caller nonce : Nat)
    (h32 : (keccak (create_preimage caller nonce)).length = 32)
    (hb : ∀ b ∈ keccak (create_preimage caller nonce), b < 256) :
    TransactionAction.address keccak .Create caller nonce
        = fromBytesBE (keccak (create_preimage caller nonce)) % 2 ^ 160
    ∧ TransactionAction.address keccak .Create caller nonce
        = fromBytesBE ((keccak (create_preimage caller nonce)).drop 12) := by
  have he : TransactionAction.address keccak .Create caller nonce
      = fromBytesBE (keccak (create_preimage caller nonce)) % 2 ^ 256 % 2 ^ 160 :=
    rfl
  have hdvd : (2 : Nat) ^ 160 ∣ 2 ^ 256 := pow_dvd_pow 2 (by omega)
  have h1 : fromBytesBE (keccak (create_preimage caller nonce)) % 2 ^ 256 % 2 ^ 160
      = fromBytesBE (keccak (create_preimage caller nonce)) % 2 ^ 160 :=
    Nat.mod_mod_of_dvd _ hdvd
  refine ⟨he.trans h1, ?_⟩
  rw [he, h1, fromBytesBE_mod_drop _ hb h32]

/-- C2 witness: the Create derivation with a concrete 32-byte hash
function at caller 1, nonce 2. -/
theorem c2_create_address_witness :
    ((List.range 32).length = 32 ∧ ∀ b ∈ List.range 32, b < 256)
    ∧ (TransactionAction.address (fun _ => List.range 32) .Create 1 2
        = fromBytesBE (List.range 32) % 2 ^ 160
      ∧ TransactionAction.address (fun _ => List.range 32) .Create 1 2
        = fromBytesBE ((List.range 32).drop 12)) :=
  ⟨⟨by decide, by decide⟩,
    c2_create_address (fun _ => List.range 32) 1 2 (by decide) (by decide)⟩

/-- C3: for every caller, salt and code hash, the Create2-derived address
is the value of the last 20 bytes of the Keccak-256 hash of the exact
preimage 0xff ++ caller ++ salt ++ code_hash, and it does not depend on
the nonce argument. -/
theorem c3_create2_address (keccak : List Nat → List Nat)
    (caller salt code_hash n1 n2 : Nat)
    (h32 : (keccak (create2_preimage caller salt code_hash)).length = 32)
    (hb : ∀ b ∈ keccak (create2_preimage caller salt code_hash), b < 256) :
    TransactionAction.address keccak (.Create2 salt code_hash) caller n1
        = fromBytesBE ((keccak (create2_preimage caller salt code_hash)).drop 12)
    ∧ TransactionAction.address keccak (.Create2 salt code_hash) caller n1
        = TransactionAction.address keccak (.Create2 salt code_hash) caller n2 := by
  have he : TransactionAction.address keccak (.Create2 salt code_hash) caller n1
      = fromBytesBE ((keccak (create2_preimage caller salt code_hash)).drop 12)
        % 2 ^ 256 % 2 ^ 160 := rfl
  have hdl : ((keccak (create2_preimage caller salt code_hash)).drop 12).length
      = 20 := by
    simp [h32]
  have hv : fromBytesBE ((keccak (create2_preimage caller salt code_hash)).drop 12)
      < 256 ^ 20 := by
    have hx := fromBytesBE_lt ((keccak (create2_preimage caller salt code_hash)).drop 12)
      (fun x hx => hb x (List.mem_of_mem_drop hx))
    rwa [hdl] at hx
  have h220 : (256 : Nat) ^ 20 = 2 ^ 160 := by norm_num
  have hlt160 : fromBytesBE ((keccak (create2_preimage caller salt code_hash)).drop 12)
      < 2 ^ 160 := by rw [← h220]; exact hv
  have hlt256 : fromBytesBE ((keccak (create2_preimage caller salt code_hash)).drop 12)
      < 2 ^ 256 := lt_trans hlt160 (by norm_num)
  constructor
  · rw [he, Nat.mod_eq_of_lt hlt256, Nat.mod_eq_of_lt hlt160]
  · rfl

/-- C3 witness: the Create2 derivation with a concrete 32-byte hash
function at caller 1, salt 2, code hash 3, nonces 7 and 9. -/
theorem c3_create2_address_witness :
    ((List.range 32).length = 32 ∧ ∀ b ∈ List.range 32, b < 256)
    ∧ (TransactionAction.address (fun _ => List.range 32) (.Create2 2 3) 1 7
        = fromBytesBE ((List.range 32).drop 12)
      ∧ TransactionAction.address (fun _ => List.range 32) (.Create2 2 3) 1 7
        = TransactionAction.address (fun _ => List.range 32) (.Create2 2 3) 1 9) :=
  ⟨⟨by decide, by decide⟩,
    c3_create2_address (fun _ => List.range 32) 1 2 3 7 9 (by decide) (by decide)⟩

/-- C6: the encoder produces exactly the spec's forms — a Call encodes to
a byte-string primitive of the 20 address bytes and no list wrapper, a
Create encodes to the empty byte-string primitive, and a Create2 encodes
to a 3-item list holding the 1-byte integer 0xc2, the 32 salt bytes and
the code hash converted to its 32-byte fixed-width form. -/
theorem c6_encoder_forms (a salt code_hash : Nat) :
    parseRlp (TransactionAction.rlp_append (.Call a))
        = some (false, toBytesBE 20 a)
    ∧ parseRlp (TransactionAction.rlp_append .Create) = some (false, [])
    ∧ ∃ payload,
        parseRlp (TransactionAction.rlp_append (.Create2 salt code_hash))
          = some (true, payload)
        ∧ itemCount payload = some 3
        ∧ itemAt 0 payload = some (false, beBytes 0xc2)
        ∧ itemAt 1 payload = some (false, toBytesBE 32 salt)
        ∧ itemAt 2 payload = some (false, toBytesBE 32 code_hash) := by
  have hsl : (toBytesBE 32 salt).length = 32 := toBytesBE_length 32 salt
  have hcl : (toBytesBE 32 code_hash).length = 32 := toBytesBE_length 32 code_hash
  have hP : rlpUint 0xc2 ++ rlpStr (toBytesBE 32 salt)
      ++ rlpStr (toBytesBE 32 code_hash)
      = 0x81 :: 0xc2 :: (rlpStr (toBytesBE 32 salt)
        ++ rlpStr (toBytesBE 32 code_hash)) := by
    rw [rlpUint_tag]
    simp only [List.cons_append, List.nil_append, List.append_assoc]
  have hsp0 : splitItem (rlpUint 0xc2 ++ rlpStr (toBytesBE 32 salt)
        ++ rlpStr (toBytesBE 32 code_hash))
      = some ((false, [0xc2]), rlpStr (toBytesBE 32 salt)
        ++ rlpStr (toBytesBE 32 code_hash)) := by
    rw [hP, splitItem_tag]
  have hsp1 : splitItem (rlpStr (toBytesBE 32 salt)
        ++ rlpStr (toBytesBE 32 code_hash))
      = some ((false, toBytesBE 32 salt), rlpStr (toBytesBE 32 code_hash)) :=
    splitItem_short_str _ _ (by rw [hsl]; omega) (by rw [hsl]; omega)
  have hsp2 : splitItem (rlpStr (toBytesBE 32 code_hash))
      = some ((false, toBytesBE 32 code_hash), []) := by
    have hx := splitItem_short_str (toBytesBE 32 code_hash) []
      (by rw [hcl]; omega) (by rw [hcl]; omega)
    rwa [List.append_nil] at hx
  refine ⟨?_, rfl, ?_⟩
  · have hlen : (toBytesBE 20 a).length = 20 := toBytesBE_length 20 a
    have hx := splitItem_short_str (toBytesBE 20 a) []
      (by rw [hlen]; omega) (by rw [hlen]; omega)
    rw [List.append_nil] at hx
    exact parseRlp_of_splitItem _ _ hx
  refine ⟨rlpUint 0xc2 ++ rlpStr (toBytesBE 32 salt)
    ++ rlpStr (toBytesBE 32 code_hash), ?_, ?_, ?_, ?_, ?_⟩
  · have hPlen := create2_payload_length salt code_hash
    have hsplit := splitItem_list68 _ [] hPlen
    rw [List.append_nil] at hsplit
    exact parseRlp_of_splitItem _ _ hsplit
  · -- item count is exactly 3
    have hPlen := create2_payload_length salt code_hash
    have hPne : rlpUint 0xc2 ++ rlpStr (toBytesBE 32 salt)
        ++ rlpStr (toBytesBE 32 code_hash) ≠ [] := by
      rw [hP]
      simp
    have hne1 : rlpStr (toBytesBE 32 salt) ++ rlpStr (toBytesBE 32 code_hash)
        ≠ [] := by
      rw [rlpStr_h256]
      simp
    have hne2 : rlpStr (toBytesBE 32 code_hash) ≠ [] := by
      rw [rlpStr_h256]
      simp
    rw [itemCount, hPlen]
    show itemCountFuel (67 + 1) (rlpUint 0xc2 ++ rlpStr (toBytesBE 32 salt)
      ++ rlpStr (toBytesBE 32 code_hash)) = some 3
    rw [itemCountFuel_cons 67 _ hPne _ _ hsp0]
    show (itemCountFuel (66 + 1) (rlpStr (toBytesBE 32 salt)
      ++ rlpStr (toBytesBE 32 code_hash))).map (fun k => k + 1) = some 3
    rw [itemCountFuel_cons 66 _ hne1 _ _ hsp1]
    show ((itemCountFuel (65 + 1) (rlpStr (toBytesBE 32 code_hash))).map
      (fun k => k + 1)).map (fun k => k + 1) = some 3
    rw [itemCountFuel_cons 65 _ hne2 _ _ hsp2, itemCountFuel_nil]
    rfl
  · rw [itemAt, hsp0]
    rfl
  · rw [itemAt_succ 0 _ _ _ hsp0, itemAt, hsp1]
    rfl
  · rw [itemAt_succ 1 _ _ _ hsp0, itemAt_succ 0 _ _ _ hsp1, itemAt, hsp2]
    rfl

/-- C4: decode dispatches in exactly the spec's order — an empty
primitive yields Create; else an input readable as a list whose first
element decodes as the single byte 0xc2 yields Create2 from the second
element (32-byte salt) and third element (32-byte hash, converted to its
integer value); else the input is decoded as a plain 20-byte address
Call; every other shape yields a decode error. -/
theorem c4_dispatch_order (input : List Nat) :
    TransactionAction.decode input = decode_spec input := by
  have hft : ¬(false = true) := by simp
  cases hp : parseRlp input with
  | none =>
    have hv : valAt input 0 = none := by rw [valAt, hp]
    have htag : firstElementIsCreate2Tag input = false := by
      rw [firstElementIsCreate2Tag, hv]
    have hcond : ¬(parseRlp input = some (false, [])) := by
      rw [hp]
      simp
    rw [decode_none _ hp, decode_spec, if_neg hcond, htag, if_neg hft, hp]
  | some pr =>
    obtain ⟨isl, bs⟩ := pr
    cases isl with
    | false =>
      by_cases hbs : bs = []
      · subst hbs
        rw [TransactionAction.decode, decode_spec, if_pos hp, if_pos hp]
      · have hv : valAt input 0 = none := by rw [valAt, hp]
        have htag : firstElementIsCreate2Tag input = false := by
          rw [firstElementIsCreate2Tag, hv]
        have hcond : ¬(parseRlp input = some (false, [])) := by
          rw [hp]
          simp [hbs]
        rw [decode_str _ _ hp hbs, decodeCall_eq _ _ hp, decode_spec,
          if_neg hcond, htag, if_neg hft, hp]
    | true =>
      have hv0 : valAt input 0 = itemAt 0 bs := by rw [valAt, hp]
      have hv1 : valAt input 1 = itemAt 1 bs := by rw [valAt, hp]
      have hv2 : valAt input 2 = itemAt 2 bs := by rw [valAt, hp]
      have hcond : ¬(parseRlp input = some (false, [])) := by
        rw [hp]
        simp
      rw [decode_list _ _ hp, decode_spec, if_neg hcond]
      cases h0 : itemAt 0 bs with
      | none =>
        have htag : firstElementIsCreate2Tag input = false := by
          rw [firstElementIsCreate2Tag, hv0, h0]
        rw [opt_none_bind, htag, if_neg hft, hp, decodeCall_list _ _ hp]
      | some it =>
        obtain ⟨b0, bs0⟩ := it
        cases b0 with
        | true =>
          have htag : firstElementIsCreate2Tag input = false := by
            rw [firstElementIsCreate2Tag, hv0, h0]
          have hd : decodeU8 (true, bs0) = none := rfl
          rw [opt_some_bind, hd, htag, if_neg hft, hp, decodeCall_list _ _ hp]
        | false =>
          by_cases htagb : bs0 = [0xc2]
          · subst htagb
            have htag : firstElementIsCreate2Tag input = true := by
              rw [firstElementIsCreate2Tag, hv0, h0]
              rfl
            rw [opt_some_bind, decodeU8_tag, htag, if_pos rfl, hv1, hv2]
            exact create2_arm_eq (itemAt 1 bs) (itemAt 2 bs)
          · have htag : firstElementIsCreate2Tag input = false := by
              rw [firstElementIsCreate2Tag, hv0, h0]
              simp [htagb]
            cases hd : decodeU8 (false, bs0) with
            | none =>
              rw [opt_some_bind, hd, htag, if_neg hft, hp,
                decodeCall_list _ _ hp]
            | some v =>
              have hvne : v ≠ 0xc2 := by
                intro hE
                exact htagb (tag_of_decodeU8 bs0 (by rw [hd, hE]))
              rw [opt_some_bind, hd, htag, if_neg hft, hp,
                decodeCall_list _ _ hp]
              simp [hvne]

/-- C7: deriving the address of a Call action returns the stored address
unchanged for every hash function, caller and nonce; no hashing is
performed. -/
theorem c7_call_address (keccak : List Nat → List Nat) (a caller nonce : Nat) :
    TransactionAction.address keccak (.Call a) caller nonce = a := rfl

/-- C9: the encoding of a Create2 value never equals the encoding of a
Call value or of Create. -/
theorem c9_no_collision (salt code_hash a : Nat) :
    TransactionAction.rlp_append (.Create2 salt code_hash)
        ≠ TransactionAction.rlp_append (.Call a)
    ∧ TransactionAction.rlp_append (.Create2 salt code_hash)
        ≠ TransactionAction.rlp_append .Create := by
  have hP := create2_payload_length salt code_hash
  have h2 : TransactionAction.rlp_append (.Create2 salt code_hash)
      = 0xf8 :: 0x44 :: (rlpUint 0xc2 ++ rlpStr (toBytesBE 32 salt)
        ++ rlpStr (toBytesBE 32 code_hash)) := by
    rw [TransactionAction.rlp_append, rlpList_eq68 _ hP]
  have hlen : (toBytesBE 20 a).length = 20 := toBytesBE_length 20 a
  constructor
  · intro hEq
    rw [h2, TransactionAction.rlp_append,
      rlpStr_eq (toBytesBE 20 a) (by rw [hlen]; omega) (by rw [hlen]; omega)]
      at hEq
    have hhead : (0xf8 : Nat) = 0x80 + (toBytesBE 20 a).length :=
      (List.cons.injEq _ _ _ _).mp hEq |>.1
    rw [hlen] at hhead
    omega
  · intro hEq
    rw [h2] at hEq
    have hstr : TransactionAction.rlp_append .Create = [0x80] := rfl
    rw [hstr] at hEq
    have hhead : (0xf8 : Nat) = 0x80 :=
      (List.cons.injEq _ _ _ _).mp hEq |>.1
    omega

/-- C8: decode returns Create exactly when the input is the encoding of
the empty byte-string primitive; no other input decodes to Create. -/
theorem c8_create_iff_empty (input : List Nat) :
    TransactionAction.decode input = .ok .Create ↔ input = rlpStr [] := by
  constructor
  · intro h
    rw [parseRlp_empty_str input (decode_create_cases input h)]
    rfl
  · intro h
    rw [h]
    rfl

/-- C5 counterexample: a well-formed 4-element list claiming the 0xc2
tag — a list whose length is not exactly 3 — decodes successfully as
Create2 instead of returning a decode error. -/
theorem c5_counterexample :
    parseRlp ([0xf8, 0x45, 0x81, 0xc2, 0xa0] ++ List.replicate 32 0
        ++ (0xa0 :: List.replicate 32 0) ++ [0x01])
      = some (true, [0x81, 0xc2, 0xa0] ++ List.replicate 32 0
        ++ (0xa0 :: List.replicate 32 0) ++ [0x01])
    ∧ itemCount ([0x81, 0xc2, 0xa0] ++ List.replicate 32 0
        ++ (0xa0 :: List.replicate 32 0) ++ [0x01]) = some 4
    ∧ firstElementIsCreate2Tag ([0xf8, 0x45, 0x81, 0xc2, 0xa0]
        ++ List.replicate 32 0 ++ (0xa0 :: List.replicate 32 0) ++ [0x01])
      = true
    ∧ TransactionAction.decode ([0xf8, 0x45, 0x81, 0xc2, 0xa0]
        ++ List.replicate 32 0 ++ (0xa0 :: List.replicate 32 0) ++ [0x01])
      = .ok (.Create2 0 0) :=
  ⟨rfl, rfl, rfl, rfl⟩

/-- C5 amended: decode errors on a tagged list with fewer than three
items, on a non-empty plain byte-string whose length is not 20, and on a
Create2 salt or hash field whose length is not 32; a tagged list with
more than three items, however, decodes as Create2 with the extra items
ignored. -/
theorem c5_reject_amended :
    (∀ input payload k, parseRlp input = some (true, payload) →
        firstElementIsCreate2Tag input = true →
        itemCount payload = some k → k < 3 →
        TransactionAction.decode input = .error .rlpError)
    ∧ (∀ input bs, parseRlp input = some (false, bs) → bs ≠ [] →
        bs.length ≠ 20 → TransactionAction.decode input = .error .rlpError)
    ∧ (∀ input payload i b bs, parseRlp input = some (true, payload) →
        firstElementIsCreate2Tag input = true →
        (i = 1 ∨ i = 2) → itemAt i payload = some (b, bs) →
        bs.length ≠ 32 → TransactionAction.decode input = .error .rlpError) := by
  refine ⟨?_, ?_, ?_⟩
  · intro input payload k hp htag hc hk
    have h0 := tag_first_item input payload hp htag
    have h2none : itemAt 2 payload = none := by
      rw [itemCount] at hc
      exact itemAt_none_of_count _ _ _ hc 2 (by omega)
    rw [decode_list _ _ hp, h0, h2none]
    cases hx : (itemAt 1 payload).bind decodeH256 with
    | none => rfl
    | some s => rfl
  · intro input bs hp hne h20
    rw [decode_str _ _ hp hne, decodeCall_eq _ _ hp, if_neg h20]
  · intro input payload i b bs hp htag hi hit h32
    have h0 := tag_first_item input payload hp htag
    have hH : decodeH256 (b, bs) = none := by
      cases b with
      | true => rfl
      | false => rw [decodeH256, if_neg h32]
    rw [decode_list _ _ hp, h0]
    rcases hi with hi | hi
    · subst hi
      rw [hit, opt_some_bind, hH]
      cases hy : (itemAt 2 payload).bind decodeH256 with
      | none => rfl
      | some c => rfl
    · subst hi
      rw [hit, opt_some_bind, hH]
      cases hx : (itemAt 1 payload).bind decodeH256 with
      | none => rfl
      | some s => rfl

/-- C5 witness: rejection at a 2-element tagged list, a 2-byte Call
string and a 1-byte Create2 salt field. -/
theorem c5_reject_amended_witness :
    TransactionAction.decode [0xc3, 0x81, 0xc2, 0x80] = .error .rlpError
    ∧ TransactionAction.decode [0x82, 1, 2] = .error .rlpError
    ∧ TransactionAction.decode [0xc3, 0x81, 0xc2, 0x01] = .error .rlpError :=
  ⟨c5_reject_amended.1 [0xc3, 0x81, 0xc2, 0x80] [0x81, 0xc2, 0x80] 2
      rfl rfl rfl (by omega),
    c5_reject_amended.2.1 [0x82, 1, 2] [1, 2] rfl (by decide) (by decide),
    c5_reject_amended.2.2 [0xc3, 0x81, 0xc2, 0x01] [0x81, 0xc2, 0x01] 1 false
      [0x01] rfl rfl (Or.inl rfl) rfl (by decide)⟩

/-- C10: decode is total — on every input it returns either a decoded
TransactionAction or the typed decode-error value, never anything else;
in this embedding encode and address derivation are likewise total
functions of their arguments. -/
theorem c10_no_panic (input : List Nat) :
    (∃ a, TransactionAction.decode input = .ok a)
    ∨ TransactionAction.decode input = .error .rlpError := by
  cases h : TransactionAction.decode input with
  | ok a => exact Or.inl ⟨a, rfl⟩
  | error e =>
    cases e
    exact Or.inr rfl

end Etcommon
